import Mathlib

/-!
Verification development for the per-tenant search core of the ingester
(`modules/ingester/instance_search.go`).

The Go functions are shallowly embedded as pure Lean functions.  Concurrency
is modelled by folding per-block outcomes in an arbitrary completion order
(the fold order is a parameter: the list of outcomes is given in the order in
which the corresponding goroutines complete their result-merging critical
sections).  Machine integers are modelled as `Nat`/`Int`; none of the
arithmetic in scope can overflow observable behaviour.  External collaborators
that are not part of the source file (the `collector` package, the
`traceql.MetadataCombiner`, scope/identifier parsing, virtual intrinsic
values) are modelled from the spec, each marked `Modelled from the spec:` in
its doc comment.
-/

namespace TempoSearch

/-- Per-block error outcomes distinguished by `instance_search.go`:
`common.ErrUnsupported`, `context.Canceled`, or any other (fatal) error
carrying a message. -/
inductive BlockErr where
  | unsupported
  | canceled
  | fatal (msg : String)
deriving DecidableEq

/-- `backend.BlockMeta`, restricted to the fields read by this file:
the block id and the inclusive wall-clock bounds in Unix seconds. -/
structure BlockMeta where
  BlockID : Nat
  StartTime : Int
  EndTime : Int
deriving DecidableEq

/-- `tempopb.SearchRequest`, restricted to the fields read by this file.
`Limit`, `Start`, `End` are unsigned in the protobuf, hence `Nat`. -/
structure SearchRequest where
  Limit : Nat
  Start : Nat
  End : Nat
  Query : String
deriving DecidableEq

/-- `includeBlock` from `instance_search.go`: uses the request time range to
decide whether a block takes part in the search.  `start`/`end` are the
request bounds converted to signed integers; a zero bound disables the
filter. -/
def includeBlock (b : BlockMeta) (req : SearchRequest) : Bool :=
  let start : Int := (req.Start : Int)
  let e : Int := (req.End : Int)
  if start = 0 ∨ e = 0 then true
  else decide (b.StartTime ≤ e) && decide (b.EndTime ≥ start)

/-! ## Trace search (`instance.Search`) -/

/-- Trace metadata as aggregated by the combiner; only the identity is
relevant to the properties in scope (deduplication key). -/
structure TraceMeta where
  id : Nat
deriving DecidableEq

/-- `tempopb.SearchMetrics`, restricted to the two fields summed by
`instance.Search`. -/
structure SearchMetrics where
  inspectedTraces : Nat
  inspectedBytes : Nat
deriving DecidableEq

/-- A block's `SearchResponse` as consumed by the merging closure: a list of
trace metadata and optional metrics (`resp.Metrics` may be nil). -/
structure BlockSearchResp where
  traces : List TraceMeta
  metrics : Option SearchMetrics
deriving DecidableEq

/-- The outcome of one per-block search (`block.Search` / the TraceQL engine
run): an optional error and an optional response.  The Go code checks the
error first and ignores the response when an error is present; a nil
response with a nil error is also possible and is skipped. -/
structure BlockSearchOutcome where
  err : Option BlockErr
  resp : Option BlockSearchResp
deriving DecidableEq

/-- Modelled from the spec: `traceql.MetadataCombiner.AddMetadata` (the
combiner lives outside the embedded source file).  The combiner is a
de-duplicating set of trace metadata keyed by trace identity; `add` is
idempotent per key.  The most-recent-first ordering is applied at
extraction and does not affect the cardinality properties in scope. -/
def addMetadata (c : List TraceMeta) (t : TraceMeta) : List TraceMeta :=
  if c.any (fun x => x.id = t.id) then c else c ++ [t]

/-- Shared mutable state of `instance.Search` during the fan-out: the
combiner contents, the summed metrics, the last-writer-wins `anyErr` slot,
and whether `cancel()` has been invoked. -/
structure SearchState where
  combiner : List TraceMeta
  metrics : SearchMetrics
  anyErr : Option String
  cancelled : Bool
deriving DecidableEq

/-- The per-trace loop at the end of the `search` closure: add each trace to
the combiner and, as soon as the combiner count reaches `maxResults`, call
`cancel()` and return.  Returns the new combiner and whether `cancel()` was
invoked. -/
def addTraces (maxResults : Nat) (c : List TraceMeta) :
    List TraceMeta → List TraceMeta × Bool
  | [] => (c, false)
  | t :: ts =>
    let c' := addMetadata c t
    if maxResults ≤ c'.length then (c', true)
    else addTraces maxResults c' ts

/-- One execution of the `search` closure of `instance.Search` against the
shared state, given the block's outcome: ignore `ErrUnsupported` and
`context.Canceled`, latch any other error into `anyErr` (last writer wins),
skip a nil response, merge metrics, and merge traces under the
`maxResults` cap. -/
def searchBlockStep (maxResults : Nat) (st : SearchState)
    (o : BlockSearchOutcome) : SearchState :=
  match o.err with
  | some .unsupported => st
  | some .canceled => st
  | some (.fatal e) => { st with anyErr := some e }
  | none =>
    match o.resp with
    | none => st
    | some resp =>
      let st' :=
        match resp.metrics with
        | some m =>
          { st with metrics :=
              ⟨st.metrics.inspectedTraces + m.inspectedTraces,
               st.metrics.inspectedBytes + m.inspectedBytes⟩ }
        | none => st
      if maxResults ≤ st'.combiner.length then st'
      else
        let p := addTraces maxResults st'.combiner resp.traces
        { st' with combiner := p.1, cancelled := st'.cancelled || p.2 }

/-- `tempopb.SearchResponse` as assembled by `instance.Search`. -/
structure SearchResponse where
  traces : List TraceMeta
  metrics : SearchMetrics
deriving DecidableEq

/-- The state at entry of `instance.Search`. -/
def initialSearchState : SearchState := ⟨[], ⟨0, 0⟩, none, false⟩

/-- The block outcomes of the parallel phase that pass the inclusion
filter, in completion order. -/
def includedOutcomes (req : SearchRequest)
    (blocks : List (BlockMeta × BlockSearchOutcome)) : List BlockSearchOutcome :=
  (blocks.filter (fun p => includeBlock p.1 req)).map Prod.snd

/-- `instance.Search`.  The head block is an `Option`: the Go code
dereferences `i.headBlock.BlockMeta()` with no nil guard, so a nil head is a
nil-pointer dereference, modelled as `none`.  `blocks` are the completing
and complete blocks with their outcomes, listed in the order their merge
sections complete.  Mirrors the source: synchronous head search under the
head lock, early error return, early success return when the combiner is
full, then the parallel fan-out under the blocks lock, then the final
`anyErr` check. -/
def instanceSearch (req : SearchRequest)
    (head : Option (BlockMeta × BlockSearchOutcome))
    (blocks : List (BlockMeta × BlockSearchOutcome)) :
    Option (Except String SearchResponse) :=
  let maxResults := if req.Limit = 0 then 20 else req.Limit
  match head with
  | none => none
  | some (hm, ho) =>
    let st1 :=
      if includeBlock hm req then searchBlockStep maxResults initialSearchState ho
      else initialSearchState
    match st1.anyErr with
    | some e => some (.error e)
    | none =>
      if maxResults ≤ st1.combiner.length then
        some (.ok ⟨st1.combiner, st1.metrics⟩)
      else
        let st2 := (includedOutcomes req blocks).foldl
          (searchBlockStep maxResults) st1
        match st2.anyErr with
        | some e => some (.error e)
        | none => some (.ok ⟨st2.combiner, st2.metrics⟩)

/-! ## Distinct collectors (`pkg/collector`, modelled from the spec) -/

/-- Modelled from the spec: `collector.DistinctString(limit)` — a
byte-size-bounded distinct set of strings with a one-way `exceeded` latch;
a limit of 0 means unbounded.  `Collect` ignores duplicates, and drops the
value while latching `exceeded` once the byte budget would be crossed. -/
structure DistinctString where
  limit : Nat
  items : List String
  exceeded : Bool
deriving DecidableEq

/-- Fresh `DistinctString` collector. -/
def DistinctString.new (limit : Nat) : DistinctString := ⟨limit, [], false⟩

/-- Total byte size of the collected strings. -/
def DistinctString.size (c : DistinctString) : Nat :=
  (c.items.map String.length).sum

/-- Modelled from the spec: `DistinctString.Collect`. -/
def DistinctString.collect (c : DistinctString) (s : String) : DistinctString :=
  if s ∈ c.items then c
  else if 0 < c.limit ∧ c.limit < c.size + s.length then
    { c with exceeded := true }
  else { c with items := c.items ++ [s] }

/-- Modelled from the spec: `collector.ScopedDistinctString(limit)` — a
byte-bounded distinct set of (scope, value) pairs with an `exceeded`
latch. -/
structure ScopedDistinctString where
  limit : Nat
  items : List (String × String)
  exceeded : Bool
deriving DecidableEq

/-- Fresh `ScopedDistinctString` collector. -/
def ScopedDistinctString.new (limit : Nat) : ScopedDistinctString :=
  ⟨limit, [], false⟩

/-- Total byte size of the collected values. -/
def ScopedDistinctString.size (c : ScopedDistinctString) : Nat :=
  (c.items.map (fun p => p.2.length)).sum

/-- Modelled from the spec: `ScopedDistinctString.Collect`. -/
def ScopedDistinctString.collect (c : ScopedDistinctString)
    (scope v : String) : ScopedDistinctString :=
  if (scope, v) ∈ c.items then c
  else if 0 < c.limit ∧ c.limit < c.size + v.length then
    { c with exceeded := true }
  else { c with items := c.items ++ [(scope, v)] }

/-- The distinct scope names present in a collected item list, in order of
first appearance. -/
def scopeNames (items : List (String × String)) : List String :=
  items.foldl (fun acc p => if p.1 ∈ acc then acc else acc ++ [p.1]) []

/-- Modelled from the spec: `ScopedDistinctString.Strings()` — the collected
values grouped by scope name. -/
def ScopedDistinctString.strings (c : ScopedDistinctString) :
    List (String × List String) :=
  (scopeNames c.items).map
    (fun s => (s, (c.items.filter (fun p => p.1 = s)).map Prod.snd))

/-- `tempopb.TagValue`: a typed tag value. -/
structure TagValue where
  typ : String
  value : String
deriving DecidableEq

/-- Modelled from the spec: `collector.DistinctValue[tempopb.TagValue]` with
the sizer `len(v.Type)+len(v.Value)` that `SearchTagValuesV2` installs. -/
structure DistinctValue where
  limit : Nat
  items : List TagValue
  exceeded : Bool
deriving DecidableEq

/-- Fresh `DistinctValue` collector. -/
def DistinctValue.new (limit : Nat) : DistinctValue := ⟨limit, [], false⟩

/-- Total byte size of the collected typed values under the installed
sizer. -/
def DistinctValue.size (c : DistinctValue) : Nat :=
  (c.items.map (fun v => v.typ.length + v.value.length)).sum

/-- Modelled from the spec: `DistinctValue.Collect`. -/
def DistinctValue.collect (c : DistinctValue) (v : TagValue) : DistinctValue :=
  if v ∈ c.items then c
  else if 0 < c.limit ∧ c.limit < c.size + v.typ.length + v.value.length then
    { c with exceeded := true }
  else { c with items := c.items ++ [v] }

/-! ## Tag-name search (`instance.SearchTagsV2` and `instance.SearchTags`) -/

/-- `traceql.AttributeScope`, restricted to the values this file
distinguishes. -/
inductive AttributeScope where
  | scopeNone
  | resource
  | span
  | unknown
deriving DecidableEq

/-- Modelled from the spec: `traceql.AttributeScopeFromString`.  The empty
scope and the literal `none` resolve to the `None` scope; `resource` and
`span` to their scopes; anything else is unknown. -/
def attributeScopeFromString (s : String) : AttributeScope :=
  if s = "" ∨ s = "none" then .scopeNone
  else if s = "resource" then .resource
  else if s = "span" then .span
  else .unknown

/-- `api.ParamScopeIntrinsic`: the sentinel scope selecting the fixed
intrinsic list (modelled from the spec: the literal `intrinsic` string). -/
def paramScopeIntrinsic : String := "intrinsic"

/-- Modelled from the spec: `search.GetVirtualIntrinsicValues()` — the fixed
list of virtual intrinsic tag names (identifiers, duration, status, ...);
any fixed non-empty list is faithful to the properties in scope. -/
def getVirtualIntrinsicValues : List String :=
  ["duration", "kind", "name", "status"]

/-- The behaviour of one block inside `SearchTagsV2`'s `searchBlock`
closure: the (scope-name, tag-name) pairs the block streams into the
collector callback, and its optional error. -/
structure TagBlockOutcome where
  tags : List (String × String)
  err : Option BlockErr
deriving DecidableEq

/-- The tag names a block emits, without their scopes. -/
def TagBlockOutcome.tagNames (b : TagBlockOutcome) : List String :=
  b.tags.map Prod.snd

/-- `SearchTagsV2`'s `searchBlock` closure on one (possibly nil) block: a
nil searcher is skipped, a latched `exceeded` collector short-circuits,
otherwise the block's tags are collected; `ErrUnsupported` is tolerated and
any other error is fatal (wrapped by the caller).  Both the native
`SearchTags` path and the `ExecuteTagNames` path are modelled uniformly by
the block's emitted pairs. -/
def tagsSearchBlock (c : ScopedDistinctString) (b : Option TagBlockOutcome) :
    Except String ScopedDistinctString :=
  match b with
  | none => .ok c
  | some b =>
    if c.exceeded then .ok c
    else
      let c' := b.tags.foldl (fun c p => c.collect p.1 p.2) c
      match b.err with
      | none => .ok c'
      | some .unsupported => .ok c'
      | some .canceled => .error "context canceled"
      | some (.fatal e) => .error e

/-- Sequential traversal of a block list by `SearchTagsV2`, short-circuiting
on the first fatal error. -/
def tagsSearchBlocks (c : ScopedDistinctString) :
    List TagBlockOutcome → Except String ScopedDistinctString
  | [] => .ok c
  | b :: bs =>
    match tagsSearchBlock c (some b) with
    | .error e => .error e
    | .ok c' => tagsSearchBlocks c' bs

/-- The head-then-completing-then-complete traversal of `SearchTagsV2`,
returning the final collector or the first fatal error. -/
def tagsCollectAll (head : Option TagBlockOutcome)
    (completing complete : List TagBlockOutcome) (limit : Nat) :
    Except String ScopedDistinctString :=
  match tagsSearchBlock (ScopedDistinctString.new limit) head with
  | .error e => .error e
  | .ok c =>
    match tagsSearchBlocks c completing with
    | .error e => .error e
    | .ok c' => tagsSearchBlocks c' complete

/-- One scope of a `tempopb.SearchTagsV2Response`. -/
structure TagsV2Scope where
  name : String
  tags : List String
deriving DecidableEq

/-- `tempopb.SearchTagsV2Response`. -/
structure TagsV2Response where
  scopes : List TagsV2Scope
deriving DecidableEq

/-- `instance.SearchTagsV2`: intrinsic-sentinel early return, scope
parsing, sequential block traversal into a scoped collector, response
assembly, and the intrinsic scope appended when the resolved scope is
`None`.  The byte `limit` stands for `MaxBytesPerTagValuesQuery`. -/
def searchTagsV2 (scope : String) (head : Option TagBlockOutcome)
    (completing complete : List TagBlockOutcome) (limit : Nat) :
    Except String TagsV2Response :=
  if scope = paramScopeIntrinsic then
    .ok ⟨[⟨paramScopeIntrinsic, getVirtualIntrinsicValues⟩]⟩
  else
    let attrScope := attributeScopeFromString scope
    if attrScope = AttributeScope.unknown then
      .error ("unknown scope: " ++ scope)
    else
      match tagsCollectAll head completing complete limit with
      | .error e => .error e
      | .ok c =>
        let base := c.strings.map (fun p => TagsV2Scope.mk p.1 p.2)
        .ok ⟨if attrScope = AttributeScope.scopeNone then
              base ++ [⟨paramScopeIntrinsic, getVirtualIntrinsicValues⟩]
            else base⟩

/-- The flattening loop of `instance.SearchTags`: fold the typed scopes
into a `DistinctString(0)` collector, skipping the intrinsic scope exactly
when the caller's scope is empty. -/
def flattenScopes (scope : String) (scopes : List TagsV2Scope) :
    DistinctString :=
  scopes.foldl
    (fun dv s =>
      if scope = "" ∧ s.name = paramScopeIntrinsic then dv
      else s.tags.foldl DistinctString.collect dv)
    (DistinctString.new 0)

/-- `instance.SearchTags` (flat): call the typed variant with the caller's
scope, skip the intrinsic scope only when the caller's scope is empty, and
flatten the remaining scopes through a `DistinctString(0)` collector. -/
def searchTags (scope : String) (head : Option TagBlockOutcome)
    (completing complete : List TagBlockOutcome) (limit : Nat) :
    Except String (List String) :=
  match searchTagsV2 scope head completing complete limit with
  | .error e => .error e
  | .ok resp => .ok (flattenScopes scope resp.scopes).items

/-! ## Flat tag-value search (`instance.SearchTagValues`) -/

/-- The behaviour of one block inside `SearchTagValues`'s `search` closure:
the values it streams into `dv.Collect` and its optional error. -/
structure ValueBlockOutcome where
  values : List String
  err : Option BlockErr
deriving DecidableEq

/-- The traversal state of `instance.SearchTagValues`: the shared
`DistinctString` collector, the plain `inspectedBlocks` counter, and the
terminating error of the sequential traversal (`none` while the traversal
is still running). -/
structure TVState where
  dv : DistinctString
  inspectedBlocks : Nat
  err : Option String
deriving DecidableEq

/-- `SearchTagValues`'s `search` closure on one (possibly nil) block, as a
step on the traversal state.  A set `err` models the traversal having
already returned: later blocks are untouched.  In source order: block cap
check, nil check, `exceeded` check, counter increment, search (collect);
`ErrUnsupported` is tolerated, any other error terminates the traversal. -/
def tagValuesStep (maxBlocks : Nat) (st : TVState)
    (s : Option ValueBlockOutcome) : TVState :=
  if st.err.isSome then st
  else if 0 < maxBlocks ∧ maxBlocks ≤ st.inspectedBlocks then st
  else
    match s with
    | none => st
    | some b =>
      if st.dv.exceeded then st
      else
        let st' := { st with
          inspectedBlocks := st.inspectedBlocks + 1,
          dv := b.values.foldl DistinctString.collect st.dv }
        match b.err with
        | none => st'
        | some .unsupported => st'
        | some .canceled => { st' with err := some "context canceled" }
        | some (.fatal e) => { st' with err := some e }

/-- The full traversal of `instance.SearchTagValues`: head (possibly nil),
then the completing and complete blocks in registry order.  `limit` stands
for `MaxBytesPerTagValuesQuery`, `maxBlocks` for
`MaxBlocksPerTagValuesQuery` (0 meaning unbounded). -/
def searchTagValuesRun (head : Option ValueBlockOutcome)
    (blocks : List ValueBlockOutcome) (limit maxBlocks : Nat) : TVState :=
  (head :: blocks.map some).foldl (tagValuesStep maxBlocks)
    ⟨DistinctString.new limit, 0, none⟩

/-- `instance.SearchTagValues`: the response is the collected distinct
values, unless the traversal terminated with an error. -/
def searchTagValues (head : Option ValueBlockOutcome)
    (blocks : List ValueBlockOutcome) (limit maxBlocks : Nat) :
    Except String (List String) :=
  let st := searchTagValuesRun head blocks limit maxBlocks
  match st.err with
  | some e => .error e
  | none => .ok st.dv.items

/-! ## Typed tag-value search (`instance.SearchTagValuesV2`) -/

/-- Modelled from the spec: the identifiers produced by
`traceql.ParseIdentifier` for the four ID intrinsics (`trace:id`,
`span:id`, and the link trace/span id variants) that `SearchTagValuesV2`
suppresses. -/
def idIntrinsics : List String :=
  ["trace:id", "span:id", "link:traceID", "link:spanID"]

/-- Modelled from the spec: `traceql.ParseIdentifier` — parses a tag name
into an identifier or fails with a domain error; an empty tag name models
an unparseable identifier. -/
def parseIdentifier (s : String) : Except String String :=
  if s = "" then .error "empty tag name" else .ok s

/-- The behaviour of one block inside `SearchTagValuesV2`'s `searchBlock`
closure: the typed values it streams into the collector and its optional
error.  Both the native `SearchTagValuesV2` path and the
`ExecuteTagValues` path are modelled uniformly by the emitted values; on
either path the closure returns the error unfiltered. -/
structure TagValueBlockOutcome where
  values : List TagValue
  err : Option BlockErr
deriving DecidableEq

/-- The shared state of `instance.SearchTagValuesV2`'s fan-out: the typed
collector, the atomic `inspectedBlocks` counter, the last-writer-wins
`anyErr` slot, and the number of blocks on which a `Searcher` operation was
actually invoked. -/
structure TV2State where
  dv : DistinctValue
  inspected : Nat
  anyErr : Option String
  calls : Nat
deriving DecidableEq

/-- One task of `SearchTagValuesV2`, in completion order.  In source order:
early exit when `anyErr` is already set; when the block cap is configured,
atomically increment `inspectedBlocks` and early-exit when the incremented
value exceeds the cap; otherwise invoke the block search (collect the
values) and latch any error (the closure's error is stored unfiltered,
wrapped by the scheduling goroutine). -/
def tagValuesV2Step (maxBlocks : Nat) (st : TV2State)
    (b : TagValueBlockOutcome) : TV2State :=
  if st.anyErr.isSome then st
  else
    let st' := if 0 < maxBlocks then { st with inspected := st.inspected + 1 }
               else st
    if 0 < maxBlocks ∧ maxBlocks < st'.inspected then st'
    else
      let st'' := { st' with
        calls := st'.calls + 1,
        dv := b.values.foldl DistinctValue.collect st'.dv }
      match b.err with
      | none => st''
      | some .unsupported => { st'' with anyErr := some "unsupported" }
      | some .canceled => { st'' with anyErr := some "context canceled" }
      | some (.fatal e) => { st'' with anyErr := some e }

/-- The fan-out of `SearchTagValuesV2` over the head task (scheduled iff the
head block is non-nil) and the complete/completing block tasks, folded in
completion order. -/
def searchTagValuesV2Fold (head : Option TagValueBlockOutcome)
    (tasks : List TagValueBlockOutcome) (limit maxBlocks : Nat) : TV2State :=
  let st0 : TV2State := ⟨DistinctValue.new limit, 0, none, 0⟩
  let st1 := match head with
    | none => st0
    | some h => tagValuesV2Step maxBlocks st0 h
  tasks.foldl (tagValuesV2Step maxBlocks) st1

/-- `instance.SearchTagValuesV2`: parse the tag name, suppress the four ID
intrinsics with an empty response before any block work, otherwise run the
fan-out, surface a latched error after the pool drains, and otherwise
return the collected typed values. -/
def searchTagValuesV2 (tagName : String)
    (head : Option TagValueBlockOutcome)
    (tasks : List TagValueBlockOutcome) (limit maxBlocks : Nat) :
    Except String (List TagValue) :=
  match parseIdentifier tagName with
  | .error e => .error e
  | .ok tag =>
    if tag ∈ idIntrinsics then .ok []
    else
      let st := searchTagValuesV2Fold head tasks limit maxBlocks
      match st.anyErr with
      | some e => .error e
      | none => .ok st.dv.items

/-- The number of blocks on which `SearchTagValuesV2` invokes a `Searcher`
operation, following the same control flow as `searchTagValuesV2`. -/
def searchTagValuesV2Calls (tagName : String)
    (head : Option TagValueBlockOutcome)
    (tasks : List TagValueBlockOutcome) (limit maxBlocks : Nat) : Nat :=
  match parseIdentifier tagName with
  | .error _ => 0
  | .ok tag =>
    if tag ∈ idIntrinsics then 0
    else (searchTagValuesV2Fold head tasks limit maxBlocks).calls

/-! ## Lock traces

The two instance locks are `headBlockMtx` (`headLock`) and `blocksMtx`
(`blocksLock`); every acquisition in `instance_search.go` is a shared
`RLock`.  Each surface's lock-relevant behaviour is embedded as the list
of lock events it can produce, parameterized by the branch conditions that
change which events occur.  For `SearchTagValuesV2` the head unlock is
performed by the asynchronously scheduled head task whose deferred
`wg.Done()` runs before its deferred `RUnlock`, so relative to the
function-exit `blocksMtx.RUnlock` the head release can fall on either
side; the Boolean `headRelLast` selects the linearization. -/

/-- A lock event on one of the two instance locks.  The exclusive
constructors exist so the embedding can state that no surface ever takes
(or upgrades to) an exclusive lock: no trace contains them. -/
inductive LockEvent where
  | acqHeadShared
  | relHead
  | acqBlocksShared
  | relBlocks
  | acqHeadExcl
  | acqBlocksExcl
deriving DecidableEq

/-- Lock events of `instance.Search`: head `RLock`, synchronous head
search, head `RUnlock`, early returns on a head error or a full combiner,
otherwise blocks `RLock` with a deferred `RUnlock`. -/
def searchLockTrace (headErr headHitLimit : Bool) : List LockEvent :=
  if headErr then [.acqHeadShared, .relHead]
  else if headHitLimit then [.acqHeadShared, .relHead]
  else [.acqHeadShared, .relHead, .acqBlocksShared, .relBlocks]

/-- Lock events of `instance.SearchTagsV2`: the intrinsic-sentinel,
unknown-scope and missing-tenant returns touch no lock; a head error
returns after the head `RUnlock`; otherwise blocks `RLock` with a deferred
`RUnlock` (errors inside the loops return through that defer). -/
def searchTagsV2LockTrace (noLockReturn headErr : Bool) : List LockEvent :=
  if noLockReturn then []
  else if headErr then [.acqHeadShared, .relHead]
  else [.acqHeadShared, .relHead, .acqBlocksShared, .relBlocks]

/-- Lock events of `instance.SearchTagValues`: same shape as the typed
tag-name surface. -/
def searchTagValuesLockTrace (noLockReturn headErr : Bool) : List LockEvent :=
  if noLockReturn then []
  else if headErr then [.acqHeadShared, .relHead]
  else [.acqHeadShared, .relHead, .acqBlocksShared, .relBlocks]

/-- Lock events of `instance.SearchTagValuesV2`: the missing-tenant,
unparseable-tag and ID-intrinsic returns touch no lock.  Otherwise the
caller takes the head `RLock`; when the head block is non-nil the scheduled
head task performs the head `RUnlock` (before or after the function-exit
blocks `RUnlock`, selected by `headRelLast`); when the head block is nil no
task is scheduled and no statement releases the head lock. -/
def searchTagValuesV2LockTrace (noLockReturn headNil headRelLast : Bool) :
    List LockEvent :=
  if noLockReturn then []
  else if headNil then [.acqHeadShared, .acqBlocksShared, .relBlocks]
  else if headRelLast then
    [.acqHeadShared, .acqBlocksShared, .relBlocks, .relHead]
  else
    [.acqHeadShared, .acqBlocksShared, .relHead, .relBlocks]

/-- Whether the shared head lock is still held when the trace ends: more
shared acquisitions than releases. -/
def headHeldAtReturn (tr : List LockEvent) : Bool :=
  tr.count .relHead < tr.count .acqHeadShared

/-- First index of an event in a trace. -/
def firstIdx (e : LockEvent) : List LockEvent → Option Nat
  | [] => none
  | x :: xs =>
    if x = e then some 0
    else (firstIdx e xs).map (· + 1)

/-- Whether some point of the trace holds both locks at once. -/
def bothHeldAt : List LockEvent → Nat → Nat → Bool
  | [], _, _ => false
  | e :: rest, h, b =>
    let h' := match e with
      | .acqHeadShared => h + 1
      | .relHead => h - 1
      | _ => h
    let b' := match e with
      | .acqBlocksShared => b + 1
      | .relBlocks => b - 1
      | _ => b
    (0 < h' && 0 < b') || bothHeldAt rest h' b'

/-- Whether the trace ever holds the head and blocks locks together. -/
def holdsBothLocks (tr : List LockEvent) : Bool := bothHeldAt tr 0 0

/-- Whether the blocks lock is released strictly before the head lock is
released; false when either release is absent. -/
def relBlocksBeforeRelHead (tr : List LockEvent) : Bool :=
  match firstIdx .relBlocks tr, firstIdx .relHead tr with
  | some i, some j => decide (i < j)
  | _, _ => false

/-- Whether every head acquisition comes strictly before every blocks
acquisition (vacuously true when one is absent). -/
def acqHeadBeforeAcqBlocks (tr : List LockEvent) : Bool :=
  match firstIdx .acqHeadShared tr, firstIdx .acqBlocksShared tr with
  | some i, some j => decide (i < j)
  | _, _ => true

/-- Whether the trace contains no exclusive acquisition (hence no
shared-to-exclusive upgrade). -/
def noExclusiveAcq (tr : List LockEvent) : Bool :=
  !(tr.contains .acqHeadExcl) && !(tr.contains .acqBlocksExcl)

/-- Whether the blocks lock is fully released by the end of the trace. -/
def blocksBalanced (tr : List LockEvent) : Bool :=
  tr.count .acqBlocksShared = tr.count .relBlocks

/-- All (scope-name, tag-name) pairs the given blocks emit, head first,
then the completing and complete lists. -/
def allTagPairs (head : Option TagBlockOutcome)
    (completing complete : List TagBlockOutcome) : List (String × String) :=
  (match head with | none => [] | some h => h.tags) ++
    (completing.map TagBlockOutcome.tags).flatten ++
    (complete.map TagBlockOutcome.tags).flatten

/-- The fatal error carried by a block outcome, if any (`ErrUnsupported`
and `context.Canceled` are not fatal). -/
def outcomeFatal (o : BlockSearchOutcome) : Option String :=
  match o.err with
  | some (.fatal e) => some e
  | _ => none

/-- The value left in the last-writer-wins `anyErr` slot by a sequence of
merge steps, in completion order: the fatal error of the latest outcome
that has one. -/
def lastFatal : List BlockSearchOutcome → Option String
  | [] => none
  | o :: os =>
    match lastFatal os with
    | some e => some e
    | none => outcomeFatal o

/-- A per-block outcome that the sequential tag surfaces tolerate: no
error, or `ErrUnsupported`. -/
def benignTag (b : TagBlockOutcome) : Prop :=
  b.err = none ∨ b.err = some .unsupported

/-- A per-block outcome that the flat tag-value surface tolerates: no
error, or `ErrUnsupported`. -/
def benignVal (b : ValueBlockOutcome) : Prop :=
  b.err = none ∨ b.err = some .unsupported

/-! ## Claim theorems -/

/-- Whatever a scoped collect returns, its items come from the previous
items or the collected pair. -/
theorem scopedCollect_items_sub (c : ScopedDistinctString)
    (s v : String) (x : String × String)
    (hx : x ∈ (c.collect s v).items) : x ∈ c.items ∨ x = (s, v) := by
  unfold ScopedDistinctString.collect at hx
  split at hx
  · exact Or.inl hx
  · split at hx
    · exact Or.inl hx
    · rcases List.mem_append.mp hx with h | h
      · exact Or.inl h
      · exact Or.inr (List.mem_singleton.mp h)

/-- Items of a scoped collect fold come from the start items or the
collected pairs. -/
theorem foldl_collectPairs_items_sub (ps : List (String × String))
    (c : ScopedDistinctString) (x : String × String)
    (hx : x ∈ (ps.foldl (fun c p => c.collect p.1 p.2) c).items) :
    x ∈ c.items ∨ x ∈ ps := by
  induction ps generalizing c with
  | nil => exact Or.inl hx
  | cons p ps ih =>
    simp only [List.foldl_cons] at hx
    rcases ih (c.collect p.1 p.2) hx with h | h
    · rcases scopedCollect_items_sub c p.1 p.2 x h with h' | h'
      · exact Or.inl h'
      · exact Or.inr (by simp [h'])
    · exact Or.inr (by simp [h])

/-- Items collected by one block traversal step come from the previous
collector or that block's emitted pairs. -/
theorem tagsSearchBlock_items_sub (c : ScopedDistinctString)
    (b : Option TagBlockOutcome) (c' : ScopedDistinctString)
    (h : tagsSearchBlock c b = .ok c') (x : String × String)
    (hx : x ∈ c'.items) :
    x ∈ c.items ∨ ∃ bb, b = some bb ∧ x ∈ bb.tags := by
  cases b with
  | none =>
    simp only [tagsSearchBlock, Except.ok.injEq] at h
    subst h
    exact Or.inl hx
  | some bb =>
    simp only [tagsSearchBlock] at h
    by_cases hex : c.exceeded = true
    · rw [if_pos hex] at h
      simp only [Except.ok.injEq] at h
      subst h
      exact Or.inl hx
    · rw [if_neg hex] at h
      rcases bb with ⟨tags, berr⟩
      have hmain : x ∈ (tags.foldl (fun c p => c.collect p.1 p.2) c).items →
          x ∈ c.items ∨ ∃ bb, some (⟨tags, berr⟩ : TagBlockOutcome) = some bb
            ∧ x ∈ bb.tags := by
        intro hm
        rcases foldl_collectPairs_items_sub tags c x hm with h' | h'
        · exact Or.inl h'
        · exact Or.inr ⟨⟨tags, berr⟩, rfl, h'⟩
      cases berr with
      | none =>
        simp only [Except.ok.injEq] at h
        subst h
        exact hmain hx
      | some e =>
        cases e with
        | unsupported =>
          simp only [Except.ok.injEq] at h
          subst h
          exact hmain hx
        | canceled => cases h
        | fatal msg => cases h

/-- Items collected by the sequential block traversal come from the
previous collector or one of the traversed blocks. -/
theorem tagsSearchBlocks_items_sub (bs : List TagBlockOutcome)
    (c c' : ScopedDistinctString)
    (h : tagsSearchBlocks c bs = .ok c') (x : String × String)
    (hx : x ∈ c'.items) :
    x ∈ c.items ∨ ∃ bb ∈ bs, x ∈ bb.tags := by
  induction bs generalizing c with
  | nil =>
    simp only [tagsSearchBlocks, Except.ok.injEq] at h
    subst h
    exact Or.inl hx
  | cons b bs ih =>
    simp only [tagsSearchBlocks] at h
    cases hsb : tagsSearchBlock c (some b) with
    | error e =>
      rw [hsb] at h
      cases h
    | ok c1 =>
      rw [hsb] at h
      rcases ih c1 h with h' | ⟨bb, hbb, hxb⟩
      · rcases tagsSearchBlock_items_sub c (some b) c1 hsb x h' with
          h'' | ⟨bb, hbb, hxb⟩
        · exact Or.inl h''
        · injection hbb with hbb
          subst hbb
          exact Or.inr ⟨b, by simp, hxb⟩
      · exact Or.inr ⟨bb, by simp [hbb], hxb⟩

/-- Items of `SearchTagsV2`'s final collector all come from pairs emitted
by the searched blocks. -/
theorem tagsCollectAll_items_sub (head : Option TagBlockOutcome)
    (completing complete : List TagBlockOutcome) (limit : Nat)
    (c : ScopedDistinctString)
    (h : tagsCollectAll head completing complete limit = .ok c)
    (x : String × String) (hx : x ∈ c.items) :
    x ∈ allTagPairs head completing complete := by
  unfold tagsCollectAll at h
  cases h1 : tagsSearchBlock (ScopedDistinctString.new limit) head with
  | error e =>
    rw [h1] at h
    cases h
  | ok c1 =>
    rw [h1] at h
    dsimp only at h
    cases h2 : tagsSearchBlocks c1 completing with
    | error e =>
      rw [h2] at h
      cases h
    | ok c2 =>
      rw [h2] at h
      unfold allTagPairs
      rcases tagsSearchBlocks_items_sub complete c2 c h x hx with
        hh | ⟨bb, hbb, hxb⟩
      · rcases tagsSearchBlocks_items_sub completing c1 c2 h2 x hh with
          hh' | ⟨bb, hbb, hxb⟩
        · rcases tagsSearchBlock_items_sub _ head c1 h1 x hh' with
            hh'' | ⟨bb, hbb, hxb⟩
          · exact absurd hh'' (List.not_mem_nil x)
          · subst hbb
            exact List.mem_append.mpr (Or.inl (List.mem_append.mpr
              (Or.inl hxb)))
        · refine List.mem_append.mpr (Or.inl (List.mem_append.mpr
            (Or.inr ?_)))
          exact List.mem_flatten.mpr ⟨bb.tags, List.mem_map.mpr
            ⟨bb, hbb, rfl⟩, hxb⟩
      · refine List.mem_append.mpr (Or.inr ?_)
        exact List.mem_flatten.mpr ⟨bb.tags, List.mem_map.mpr
          ⟨bb, hbb, rfl⟩, hxb⟩

/-- A value listed under a scope in `Strings()` is a collected item of that
scope. -/
theorem ScopedDistinctString.strings_mem (c : ScopedDistinctString)
    (s : String) (vals : List String) (h : (s, vals) ∈ c.strings)
    (v : String) (hv : v ∈ vals) : (s, v) ∈ c.items := by
  unfold ScopedDistinctString.strings at h
  obtain ⟨sc, hsc, heq⟩ := List.mem_map.mp h
  injection heq with h1 h2
  rw [← h1]
  rw [← h2] at hv
  obtain ⟨p, hp, hpv⟩ := List.mem_map.mp hv
  have hpf := List.mem_filter.mp hp
  have hps : p.1 = sc := by simpa using hpf.2
  have hpx : p = (sc, v) := by
    rcases p with ⟨a, b⟩
    simp only at hps hpv
    simp [hps, hpv]
  exact hpx ▸ hpf.1

/-- Whatever a flat collect returns, its items come from the previous
items or the collected value. -/
theorem distinctCollect_items_sub (c : DistinctString)
    (v x : String) (hx : x ∈ (c.collect v).items) :
    x ∈ c.items ∨ x = v := by
  unfold DistinctString.collect at hx
  split at hx
  · exact Or.inl hx
  · split at hx
    · exact Or.inl hx
    · rcases List.mem_append.mp hx with h | h
      · exact Or.inl h
      · exact Or.inr (List.mem_singleton.mp h)

/-- Items of a flat collect fold come from the start items or the
collected values. -/
theorem foldl_collectStrings_items_sub (vs : List String)
    (c : DistinctString) (x : String)
    (hx : x ∈ (vs.foldl DistinctString.collect c).items) :
    x ∈ c.items ∨ x ∈ vs := by
  induction vs generalizing c with
  | nil => exact Or.inl hx
  | cons v vs ih =>
    simp only [List.foldl_cons] at hx
    rcases ih (c.collect v) hx with h | h
    · rcases distinctCollect_items_sub c v x h with h' | h'
      · exact Or.inl h'
      · exact Or.inr (by simp [h'])
    · exact Or.inr (by simp [h])

/-- Items of the flat `SearchTags` flattening fold come from the start
collector or a scope that survived the skip condition. -/
theorem flat_fold_mem (scope : String) (scopes : List TagsV2Scope)
    (dv0 : DistinctString) (x : String)
    (hx : x ∈ (scopes.foldl (fun dv s =>
        if scope = "" ∧ s.name = paramScopeIntrinsic then dv
        else s.tags.foldl DistinctString.collect dv) dv0).items) :
    x ∈ dv0.items ∨ ∃ s ∈ scopes,
      ¬(scope = "" ∧ s.name = paramScopeIntrinsic) ∧ x ∈ s.tags := by
  induction scopes generalizing dv0 with
  | nil => exact Or.inl hx
  | cons s ss ih =>
    simp only [List.foldl_cons] at hx
    by_cases hskip : scope = "" ∧ s.name = paramScopeIntrinsic
    · rw [if_pos hskip] at hx
      rcases ih dv0 hx with h | ⟨t, ht, hk, hxt⟩
      · exact Or.inl h
      · exact Or.inr ⟨t, by simp [ht], hk, hxt⟩
    · rw [if_neg hskip] at hx
      rcases ih _ hx with h | ⟨t, ht, hk, hxt⟩
      · rcases foldl_collectStrings_items_sub s.tags dv0 x h with h' | h'
        · exact Or.inl h'
        · exact Or.inr ⟨s, by simp, hskip, h'⟩
      · exact Or.inr ⟨t, by simp [ht], hk, hxt⟩

/-- Items of the flat flattening come from a scope surviving the skip
condition. -/
theorem flattenScopes_mem (scope : String) (scopes : List TagsV2Scope)
    (x : String) (hx : x ∈ (flattenScopes scope scopes).items) :
    ∃ s ∈ scopes,
      ¬(scope = "" ∧ s.name = paramScopeIntrinsic) ∧ x ∈ s.tags := by
  unfold flattenScopes at hx
  rcases flat_fold_mem scope scopes (DistinctString.new 0) x hx with h | h
  · exact absurd h (List.not_mem_nil x)
  · exact h

/-- `SearchTagsV2` with the empty scope: its scopes are the collector
groups followed by the appended virtual intrinsic scope. -/
theorem searchTagsV2_empty_scope (head : Option TagBlockOutcome)
    (completing complete : List TagBlockOutcome) (limit : Nat)
    (resp : TagsV2Response)
    (h : searchTagsV2 "" head completing complete limit = .ok resp) :
    ∃ c, tagsCollectAll head completing complete limit = .ok c ∧
      resp.scopes = c.strings.map (fun p => TagsV2Scope.mk p.1 p.2) ++
        [⟨paramScopeIntrinsic, getVirtualIntrinsicValues⟩] := by
  unfold searchTagsV2 at h
  rw [if_neg (show ¬("" = paramScopeIntrinsic) by decide)] at h
  dsimp only at h
  rw [show attributeScopeFromString "" = AttributeScope.scopeNone from rfl]
    at h
  rw [if_neg (show ¬(AttributeScope.scopeNone = AttributeScope.unknown)
    by decide)] at h
  cases hca : tagsCollectAll head completing complete limit with
  | error e =>
    rw [hca] at h
    cases h
  | ok c =>
    rw [hca] at h
    simp only [Except.ok.injEq, eq_self_iff_true, if_true] at h
    subst h
    exact ⟨c, rfl, rfl⟩

/-- Claim C6 as amended: the intrinsic scope is excluded from the flat
`SearchTags` output only when the caller's scope is empty; for the empty
scope, every returned tag name was emitted by one of the blocks — the
virtual intrinsic scope appended by the typed surface never reaches the
flat output. -/
theorem C6_flat_tags_from_blocks (head : Option TagBlockOutcome)
    (completing complete : List TagBlockOutcome) (limit : Nat)
    (l : List String)
    (h : searchTags "" head completing complete limit = .ok l) :
    ∀ x ∈ l, x ∈ (allTagPairs head completing complete).map Prod.snd := by
  intro x hx
  unfold searchTags at h
  cases hv2 : searchTagsV2 "" head completing complete limit with
  | error e =>
    rw [hv2] at h
    cases h
  | ok resp =>
    rw [hv2] at h
    simp only [Except.ok.injEq] at h
    subst h
    obtain ⟨s, hs, hkeep, hxs⟩ := flattenScopes_mem "" resp.scopes x hx
    obtain ⟨c, hca, hscopes⟩ :=
      searchTagsV2_empty_scope head completing complete limit resp hv2
    rw [hscopes] at hs
    rcases List.mem_append.mp hs with hbase | hlast
    · obtain ⟨p, hp, hps⟩ := List.mem_map.mp hbase
      have hpair : (p.1, x) ∈ c.items := by
        refine ScopedDistinctString.strings_mem c p.1 p.2 ?_ x ?_
        · rcases p with ⟨a, b⟩
          exact hp
        · rw [← hps] at hxs
          exact hxs
      have := tagsCollectAll_items_sub head completing complete limit c
        hca (p.1, x) hpair
      exact List.mem_map.mpr ⟨(p.1, x), this, rfl⟩
    · exfalso
      apply hkeep
      refine ⟨rfl, ?_⟩
      have : s = ⟨paramScopeIntrinsic, getVirtualIntrinsicValues⟩ :=
        List.mem_singleton.mp hlast
      rw [this]

/-- Witness for the amended C6: with the empty scope, a head block emitting
`http.method` under the span scope yields a flat output whose single entry
is indeed block-emitted. -/
theorem C6_flat_tags_from_blocks_witness :
    "http.method" ∈ (allTagPairs (some ⟨[("span", "http.method")], none⟩)
      [] []).map Prod.snd :=
  C6_flat_tags_from_blocks (some ⟨[("span", "http.method")], none⟩) [] [] 0
    ["http.method"] rfl "http.method" (by decide)

/-- Claim C3: for every block with bounds `[bs, be]` and request window
`[rs, re]`, `includeBlock` returns true whenever `rs = 0` or `re = 0`, and
otherwise returns true iff `bs ≤ re` and `be ≥ rs`, in whole seconds. -/
theorem C3_includeBlock_window (b : BlockMeta) (req : SearchRequest) :
    (req.Start = 0 ∨ req.End = 0 → includeBlock b req = true) ∧
    (req.Start ≠ 0 → req.End ≠ 0 →
      (includeBlock b req = true ↔
        b.StartTime ≤ (req.End : Int) ∧ b.EndTime ≥ (req.Start : Int))) := by
  unfold includeBlock
  constructor
  · intro h
    have hz : (req.Start : Int) = 0 ∨ (req.End : Int) = 0 := by
      rcases h with h | h <;> simp [h]
    rw [if_pos hz]
  · intro hs he
    have h1 : ¬((req.Start : Int) = 0 ∨ (req.End : Int) = 0) := by
      push_neg
      exact ⟨by exact_mod_cast hs, by exact_mod_cast he⟩
    rw [if_neg h1]
    simp only [Bool.and_eq_true, decide_eq_true_eq]

/-- Witness for C3 at the spec's scenario G: block `[100, 200]`, request
window `[150, 160]`, included. -/
theorem C3_includeBlock_window_witness :
    includeBlock ⟨1, 100, 200⟩ ⟨0, 150, 160, ""⟩ = true :=
  ((C3_includeBlock_window ⟨1, 100, 200⟩ ⟨0, 150, 160, ""⟩).2
    (by decide) (by decide)).mpr (by decide)

/-- Claim C7: a `SearchTagValuesV2` request whose tag name is one of the
four ID intrinsics returns an empty response and invokes no block
`Searcher` operation. -/
theorem C7_id_intrinsic_suppression (tagName : String)
    (head : Option TagValueBlockOutcome) (tasks : List TagValueBlockOutcome)
    (limit maxBlocks : Nat) (h : tagName ∈ idIntrinsics) :
    searchTagValuesV2 tagName head tasks limit maxBlocks = .ok [] ∧
    searchTagValuesV2Calls tagName head tasks limit maxBlocks = 0 := by
  have hne : tagName ≠ "" := by
    simp only [idIntrinsics, List.mem_cons, List.not_mem_nil, or_false] at h
    rcases h with rfl | rfl | rfl | rfl <;> decide
  unfold searchTagValuesV2 searchTagValuesV2Calls parseIdentifier
  simp [hne, h]

/-- Witness for C7: `trace:id` with a head block and a complete block that
would both contribute values still yields the empty response with zero
searcher invocations. -/
theorem C7_id_intrinsic_suppression_witness :
    searchTagValuesV2 "trace:id" (some ⟨[⟨"string", "x"⟩], none⟩)
        [⟨[⟨"int", "1"⟩], none⟩] 100 0 = .ok [] ∧
    searchTagValuesV2Calls "trace:id" (some ⟨[⟨"string", "x"⟩], none⟩)
        [⟨[⟨"int", "1"⟩], none⟩] 100 0 = 0 :=
  C7_id_intrinsic_suppression "trace:id" (some ⟨[⟨"string", "x"⟩], none⟩)
    [⟨[⟨"int", "1"⟩], none⟩] 100 0 (by decide)

/-- Adding one trace grows the combiner by at most one entry. -/
theorem addMetadata_length_le (c : List TraceMeta) (t : TraceMeta) :
    (addMetadata c t).length ≤ c.length + 1 := by
  unfold addMetadata
  split
  · exact Nat.le_succ _
  · simp

/-- The per-trace merge loop never grows the combiner past `maxResults`
when it starts strictly below it. -/
theorem addTraces_length_le (maxResults : Nat) (c ts : List TraceMeta)
    (h : c.length < maxResults) :
    (addTraces maxResults c ts).1.length ≤ maxResults := by
  induction ts generalizing c with
  | nil => exact Nat.le_of_lt h
  | cons t ts ih =>
    unfold addTraces
    by_cases hm : maxResults ≤ (addMetadata c t).length
    · simp only [hm, if_pos]
      exact le_trans (addMetadata_length_le c t) h
    · simp only [hm, if_neg, not_false_iff]
      exact ih _ (Nat.lt_of_not_le hm)

/-- One merge step preserves the combiner-size invariant. -/
theorem searchBlockStep_combiner_le (maxResults : Nat) (st : SearchState)
    (o : BlockSearchOutcome) (h : st.combiner.length ≤ maxResults) :
    (searchBlockStep maxResults st o).combiner.length ≤ maxResults := by
  rcases o with ⟨err, resp⟩
  unfold searchBlockStep
  cases err with
  | some e => cases e <;> exact h
  | none =>
    cases resp with
    | none => exact h
    | some r =>
      rcases r with ⟨traces, met⟩
      cases met with
      | none =>
        dsimp only
        split
        · exact h
        · next hc => exact addTraces_length_le _ _ _ (Nat.lt_of_not_le hc)
      | some m =>
        dsimp only
        split
        · exact h
        · next hc => exact addTraces_length_le _ _ _ (Nat.lt_of_not_le hc)

/-- The parallel fan-out preserves the combiner-size invariant. -/
theorem foldl_searchBlockStep_combiner_le (maxResults : Nat)
    (os : List BlockSearchOutcome) (st : SearchState)
    (h : st.combiner.length ≤ maxResults) :
    (os.foldl (searchBlockStep maxResults) st).combiner.length ≤ maxResults := by
  induction os generalizing st with
  | nil => exact h
  | cons o os ih => exact ih _ (searchBlockStep_combiner_le _ _ _ h)

/-- Claim C4: a successful trace search returns at most `req.Limit` traces
when the request limit is positive, and at most the default 20 when it is
zero. -/
theorem C4_trace_search_limit (req : SearchRequest) (hm : BlockMeta)
    (ho : BlockSearchOutcome) (blocks : List (BlockMeta × BlockSearchOutcome))
    (resp : SearchResponse)
    (h : instanceSearch req (some (hm, ho)) blocks = some (.ok resp)) :
    resp.traces.length ≤ if req.Limit = 0 then 20 else req.Limit := by
  simp only [instanceSearch] at h
  generalize hK : (if req.Limit = 0 then 20 else req.Limit) = K at h ⊢
  repeat' split at h
  all_goals simp only [Option.some.injEq, Except.ok.injEq] at h
  all_goals first
  | exact (Except.noConfusion h)
  | (subst h
     first
     | exact searchBlockStep_combiner_le _ _ _ (by simp [initialSearchState])
     | exact foldl_searchBlockStep_combiner_le _ _ _
         (searchBlockStep_combiner_le _ _ _ (by simp [initialSearchState]))
     | exact foldl_searchBlockStep_combiner_le _ _ _
         (by simp [initialSearchState])
     | simp [initialSearchState])

/-- Witness for C4: request limit 2 against a head block holding three
traces yields exactly two traces, within the bound. -/
theorem C4_trace_search_limit_witness :
    (SearchResponse.mk [⟨1⟩, ⟨2⟩] ⟨5, 7⟩).traces.length ≤
      if (2 : Nat) = 0 then 20 else 2 :=
  C4_trace_search_limit ⟨2, 0, 0, ""⟩ ⟨1, 5, 10⟩
    ⟨none, some ⟨[⟨1⟩, ⟨2⟩, ⟨3⟩], some ⟨5, 7⟩⟩⟩ [] ⟨[⟨1⟩, ⟨2⟩], ⟨5, 7⟩⟩ rfl

/-- One merge step writes a fatal error over the `anyErr` slot and leaves
it untouched otherwise. -/
theorem searchBlockStep_anyErr (maxResults : Nat) (st : SearchState)
    (o : BlockSearchOutcome) :
    (searchBlockStep maxResults st o).anyErr =
      match outcomeFatal o with
      | some e => some e
      | none => st.anyErr := by
  rcases o with ⟨err, resp⟩
  unfold searchBlockStep outcomeFatal
  cases err with
  | none =>
    cases resp with
    | none => rfl
    | some r =>
      rcases r with ⟨traces, met⟩
      cases met with
      | none =>
        dsimp only
        split <;> rfl
      | some m =>
        dsimp only
        split <;> rfl
  | some e => cases e <;> rfl

/-- After the fan-out drains, the `anyErr` slot holds the latest fatal
error, or its pre-fan-out value when no task latched one. -/
theorem foldl_searchBlockStep_anyErr (maxResults : Nat)
    (os : List BlockSearchOutcome) (st : SearchState) :
    (os.foldl (searchBlockStep maxResults) st).anyErr =
      match lastFatal os with
      | some e => some e
      | none => st.anyErr := by
  induction os generalizing st with
  | nil => rfl
  | cons o os ih =>
    simp only [List.foldl_cons, ih, searchBlockStep_anyErr, lastFatal]
    cases lastFatal os <;> cases outcomeFatal o <;> rfl

/-- `instance.Search` with the head block excluded by the time filter:
the result is the latched error after the fan-out when one exists, and the
assembled response otherwise. -/
theorem instanceSearch_headExcluded (req : SearchRequest) (hm : BlockMeta)
    (ho : BlockSearchOutcome) (blocks : List (BlockMeta × BlockSearchOutcome))
    (hInc : includeBlock hm req = false) :
    instanceSearch req (some (hm, ho)) blocks =
      (match lastFatal (includedOutcomes req blocks) with
      | some e => some (.error e)
      | none =>
        let st2 := (includedOutcomes req blocks).foldl
          (searchBlockStep (if req.Limit = 0 then 20 else req.Limit))
          initialSearchState
        some (.ok ⟨st2.combiner, st2.metrics⟩)) := by
  have hK : ¬((if req.Limit = 0 then 20 else req.Limit) ≤
      (initialSearchState).combiner.length) := by
    have hlen : (initialSearchState).combiner.length = 0 := rfl
    rw [hlen]
    split
    · omega
    · next hne => omega
  simp only [instanceSearch, hInc, Bool.false_eq_true, if_false]
  have hAnyErr : (initialSearchState).anyErr = none := rfl
  rw [hAnyErr, if_neg hK,
    foldl_searchBlockStep_anyErr (if req.Limit = 0 then 20 else req.Limit)
      (includedOutcomes req blocks) initialSearchState]
  cases lastFatal (includedOutcomes req blocks) <;> rfl

/-- Claim C5: in trace search, `ErrUnsupported` and `context.Canceled`
per-block errors leave the shared state untouched (the call can still
succeed), any other error overwrites the single `anyErr` slot (last writer
wins), and after the fan-out the call returns the latched error when one
is set and the assembled response otherwise. -/
theorem C5_search_error_policy (maxResults : Nat) (st : SearchState)
    (o : BlockSearchOutcome) (e : String) (req : SearchRequest)
    (hm : BlockMeta) (ho : BlockSearchOutcome)
    (blocks : List (BlockMeta × BlockSearchOutcome)) :
    (o.err = some .unsupported → searchBlockStep maxResults st o = st) ∧
    (o.err = some .canceled → searchBlockStep maxResults st o = st) ∧
    (o.err = some (.fatal e) →
      (searchBlockStep maxResults st o).anyErr = some e) ∧
    (includeBlock hm req = false →
      lastFatal (includedOutcomes req blocks) = some e →
      instanceSearch req (some (hm, ho)) blocks = some (.error e)) ∧
    (includeBlock hm req = false →
      lastFatal (includedOutcomes req blocks) = none →
      ∃ r, instanceSearch req (some (hm, ho)) blocks = some (.ok r)) := by
  refine ⟨?_, ?_, ?_, ?_, ?_⟩
  · intro h
    simp [searchBlockStep, h]
  · intro h
    simp [searchBlockStep, h]
  · intro h
    simp [searchBlockStep, h]
  · intro hInc hLast
    rw [instanceSearch_headExcluded req hm ho blocks hInc, hLast]
  · intro hInc hLast
    rw [instanceSearch_headExcluded req hm ho blocks hInc, hLast]
    exact ⟨_, rfl⟩

/-- Witness for C5: a head block outside the request window plus one
included block failing fatally makes the call return that error; combined
with an `ErrUnsupported` head step being a no-op. -/
theorem C5_search_error_policy_witness :
    instanceSearch ⟨10, 150, 200, ""⟩ (some (⟨1, 100, 120⟩, ⟨none, none⟩))
        [(⟨2, 150, 160⟩, ⟨some (.fatal "boom"), none⟩)]
      = some (.error "boom") :=
  (C5_search_error_policy 10 initialSearchState ⟨none, none⟩ "boom"
      ⟨10, 150, 200, ""⟩ ⟨1, 100, 120⟩ ⟨none, none⟩
      [(⟨2, 150, 160⟩, ⟨some (.fatal "boom"), none⟩)]).2.2.2.1 rfl rfl

/-- Claim C1, evaluated on the code: on the nil-head path of
`SearchTagValuesV2` no task is scheduled and no statement performs the head
`RUnlock`, so the shared head lock acquired at entry is still held when the
call returns; on the non-nil path the head task's deferred unlock does
release it (in either linearization). -/
theorem C1_head_lock_release_evaluated :
    headHeldAtReturn (searchTagValuesV2LockTrace false true true) = true ∧
    headHeldAtReturn (searchTagValuesV2LockTrace false true false) = true ∧
    headHeldAtReturn (searchTagValuesV2LockTrace false false true) = false ∧
    headHeldAtReturn (searchTagValuesV2LockTrace false false false) = false := by
  decide

/-- Claim C2 counterexample: the `SearchTagValuesV2` linearization in which
the head task's deferred `RUnlock` runs before the function-exit blocks
`RUnlock` (the common case: the head task finishes while other tasks are
still draining) holds both locks at once, yet the blocks lock is not
released before the head lock. -/
theorem C2_release_order_counterexample :
    holdsBothLocks (searchTagValuesV2LockTrace false false false) = true ∧
    relBlocksBeforeRelHead (searchTagValuesV2LockTrace false false false)
      = false := by
  decide

/-- Claim C2 as amended: on every path of the four query surfaces the head
lock is acquired strictly before the blocks lock, no exclusive acquisition
(hence no shared-to-exclusive upgrade) ever occurs, and the blocks lock is
always released by return; the head-lock release is not ordered after the
blocks-lock release. -/
theorem C2_lock_order_amended :
    ∀ (a b c d e f g h i : Bool),
      (acqHeadBeforeAcqBlocks (searchLockTrace a b) = true ∧
        noExclusiveAcq (searchLockTrace a b) = true ∧
        blocksBalanced (searchLockTrace a b) = true) ∧
      (acqHeadBeforeAcqBlocks (searchTagsV2LockTrace c d) = true ∧
        noExclusiveAcq (searchTagsV2LockTrace c d) = true ∧
        blocksBalanced (searchTagsV2LockTrace c d) = true) ∧
      (acqHeadBeforeAcqBlocks (searchTagValuesLockTrace e f) = true ∧
        noExclusiveAcq (searchTagValuesLockTrace e f) = true ∧
        blocksBalanced (searchTagValuesLockTrace e f) = true) ∧
      (acqHeadBeforeAcqBlocks (searchTagValuesV2LockTrace g h i) = true ∧
        noExclusiveAcq (searchTagValuesV2LockTrace g h i) = true ∧
        blocksBalanced (searchTagValuesV2LockTrace g h i) = true) := by
  decide

/-- One flat tag-value step keeps the inspected-block counter at or below a
positive cap. -/
theorem tagValuesStep_inspected_le (maxBlocks : Nat) (st : TVState)
    (s : Option ValueBlockOutcome) (hpos : 0 < maxBlocks)
    (h : st.inspectedBlocks ≤ maxBlocks) :
    (tagValuesStep maxBlocks st s).inspectedBlocks ≤ maxBlocks := by
  unfold tagValuesStep
  split
  · exact h
  · split
    · exact h
    · next hcap =>
      have hlt : st.inspectedBlocks < maxBlocks := by
        rcases Nat.lt_or_ge st.inspectedBlocks maxBlocks with h' | h'
        · exact h'
        · exact absurd ⟨hpos, h'⟩ hcap
      cases s with
      | none => exact h
      | some b =>
        dsimp only
        by_cases hex : st.dv.exceeded = true
        · rw [if_pos hex]
          exact h
        · rw [if_neg hex]
          rcases b with ⟨vals, berr⟩
          cases berr with
          | none => exact Nat.succ_le_of_lt hlt
          | some e => cases e <;> exact Nat.succ_le_of_lt hlt

/-- The flat tag-value traversal keeps the inspected-block counter at or
below a positive cap. -/
theorem foldl_tagValuesStep_inspected_le (maxBlocks : Nat)
    (ss : List (Option ValueBlockOutcome)) (st : TVState)
    (hpos : 0 < maxBlocks) (h : st.inspectedBlocks ≤ maxBlocks) :
    (ss.foldl (tagValuesStep maxBlocks) st).inspectedBlocks ≤ maxBlocks := by
  induction ss generalizing st with
  | nil => exact h
  | cons s ss ih => exact ih _ (tagValuesStep_inspected_le _ _ _ hpos h)

/-- One typed tag-value task preserves the cap invariant: searcher
invocations never outnumber counter increments nor exceed a positive
cap. -/
theorem tagValuesV2Step_invariant (maxBlocks : Nat) (st : TV2State)
    (b : TagValueBlockOutcome) (hpos : 0 < maxBlocks)
    (h1 : st.calls ≤ st.inspected) (h2 : st.calls ≤ maxBlocks) :
    (tagValuesV2Step maxBlocks st b).calls ≤
      (tagValuesV2Step maxBlocks st b).inspected ∧
    (tagValuesV2Step maxBlocks st b).calls ≤ maxBlocks := by
  unfold tagValuesV2Step
  split
  · exact ⟨h1, h2⟩
  · dsimp only
    by_cases hcap : 0 < maxBlocks ∧ maxBlocks < st.inspected + 1
    · rw [if_pos hcap]
      exact ⟨Nat.le_succ_of_le h1, h2⟩
    · rw [if_neg hcap]
      have hle : st.inspected + 1 ≤ maxBlocks := by
        rcases Nat.lt_or_ge maxBlocks (st.inspected + 1) with h' | h'
        · exact absurd ⟨hpos, h'⟩ hcap
        · exact h'
      rcases b with ⟨vals, berr⟩
      cases berr with
      | none =>
        exact ⟨Nat.succ_le_succ h1, le_trans (Nat.succ_le_succ h1) hle⟩
      | some e =>
        cases e <;>
          exact ⟨Nat.succ_le_succ h1, le_trans (Nat.succ_le_succ h1) hle⟩

/-- The typed tag-value fan-out preserves the cap invariant. -/
theorem foldl_tagValuesV2Step_invariant (maxBlocks : Nat)
    (bs : List TagValueBlockOutcome) (st : TV2State) (hpos : 0 < maxBlocks)
    (h1 : st.calls ≤ st.inspected) (h2 : st.calls ≤ maxBlocks) :
    (bs.foldl (tagValuesV2Step maxBlocks) st).calls ≤ maxBlocks := by
  induction bs generalizing st with
  | nil => exact h2
  | cons b bs ih =>
    obtain ⟨h1', h2'⟩ := tagValuesV2Step_invariant maxBlocks st b hpos h1 h2
    exact ih _ h1' h2'

/-- A `DistinctString` collect with an unlimited (zero) byte budget never
latches `exceeded` and keeps the budget unlimited. -/
theorem DistinctString.collect_limit0 (c : DistinctString) (s : String)
    (h : c.limit = 0) :
    (c.collect s).limit = 0 ∧ (c.collect s).exceeded = c.exceeded := by
  unfold DistinctString.collect
  split
  · exact ⟨h, rfl⟩
  · split
    · next hcond =>
      rw [h] at hcond
      exact absurd hcond.1 (by omega)
    · exact ⟨h, rfl⟩

/-- Folding collects with an unlimited budget never latches `exceeded`. -/
theorem foldl_collect_limit0 (vals : List String) (dv : DistinctString)
    (h0 : dv.limit = 0) (hx : dv.exceeded = false) :
    (vals.foldl DistinctString.collect dv).limit = 0 ∧
    (vals.foldl DistinctString.collect dv).exceeded = false := by
  induction vals generalizing dv with
  | nil => exact ⟨h0, hx⟩
  | cons v vs ih =>
    obtain ⟨h0', hx'⟩ := DistinctString.collect_limit0 dv v h0
    exact ih _ h0' (hx' ▸ hx)

/-- With no cap, an unlimited collector and a benign block, one flat
tag-value step searches the block: the counter advances by one and the
running-state invariants persist. -/
theorem tagValuesStep_unbounded (st : TVState) (b : ValueBlockOutcome)
    (hb : b.err = none ∨ b.err = some .unsupported)
    (h0 : st.dv.limit = 0) (hx : st.dv.exceeded = false)
    (he : st.err = none) :
    (tagValuesStep 0 st (some b)).inspectedBlocks = st.inspectedBlocks + 1 ∧
    (tagValuesStep 0 st (some b)).dv.limit = 0 ∧
    (tagValuesStep 0 st (some b)).dv.exceeded = false ∧
    (tagValuesStep 0 st (some b)).err = none := by
  unfold tagValuesStep
  rw [he]
  simp only [Option.isSome_none, Bool.false_eq_true, if_false, hx,
    Nat.lt_irrefl, false_and, if_false]
  obtain ⟨hl, hxx⟩ := foldl_collect_limit0 b.values st.dv h0 hx
  rcases b with ⟨vals, berr⟩
  rcases hb with hb | hb <;>
  · subst hb
    exact ⟨rfl, hl, hxx, rfl⟩

/-- With no cap, an unlimited collector and benign blocks, the flat
tag-value traversal searches every block in the list. -/
theorem foldl_tagValuesStep_unbounded (blocks : List ValueBlockOutcome)
    (st : TVState)
    (hb : ∀ b ∈ blocks, b.err = none ∨ b.err = some .unsupported)
    (h0 : st.dv.limit = 0) (hx : st.dv.exceeded = false)
    (he : st.err = none) :
    ((blocks.map some).foldl (tagValuesStep 0) st).inspectedBlocks =
      st.inspectedBlocks + blocks.length := by
  induction blocks generalizing st with
  | nil => simp [he]
  | cons b bs ih =>
    obtain ⟨hcnt, hl, hxx, he'⟩ :=
      tagValuesStep_unbounded st b (hb b (by simp)) h0 hx he
    simp only [List.map_cons, List.foldl_cons, List.length_cons]
    rw [ih _ (fun x hxm => hb x (by simp [hxm])) hl hxx he', hcnt]
    omega

/-- With no cap and no errors, one typed tag-value task searches its
block. -/
theorem tagValuesV2Step_unbounded (st : TV2State) (b : TagValueBlockOutcome)
    (hb : b.err = none) (ha : st.anyErr = none) :
    (tagValuesV2Step 0 st b).calls = st.calls + 1 ∧
    (tagValuesV2Step 0 st b).anyErr = none := by
  unfold tagValuesV2Step
  rw [ha]
  rcases b with ⟨vals, berr⟩
  subst hb
  simp [ha]

/-- With no cap and no errors, the typed tag-value fan-out searches every
block in the list. -/
theorem foldl_tagValuesV2Step_unbounded (bs : List TagValueBlockOutcome)
    (st : TV2State) (hb : ∀ b ∈ bs, b.err = none) (ha : st.anyErr = none) :
    (bs.foldl (tagValuesV2Step 0) st).calls = st.calls + bs.length := by
  induction bs generalizing st with
  | nil => rfl
  | cons b bs ih =>
    obtain ⟨hc, ha'⟩ := tagValuesV2Step_unbounded st b (hb b (by simp)) ha
    simp only [List.foldl_cons, List.length_cons]
    rw [ih _ (fun x hxm => hb x (by simp [hxm])) ha', hc]
    omega

/-- Claim C9: when `MaxBlocksPerTagValuesQuery` is positive, both tag-value
surfaces search at most that many blocks (the flat surface counts with a
plain counter checked before each search; the typed surface increments an
atomic counter per task and tasks above the cap short-circuit without
searching); when the cap is zero the number of searched blocks is
unbounded: with benign blocks, every listed block is searched. -/
theorem C9_block_cap (head : Option ValueBlockOutcome)
    (blocks : List ValueBlockOutcome) (vhead : Option TagValueBlockOutcome)
    (vtasks : List TagValueBlockOutcome) (limit limit2 maxBlocks : Nat)
    (ublocks : List ValueBlockOutcome) (utasks : List TagValueBlockOutcome) :
    (0 < maxBlocks →
      (searchTagValuesRun head blocks limit maxBlocks).inspectedBlocks ≤
        maxBlocks) ∧
    (0 < maxBlocks →
      (searchTagValuesV2Fold vhead vtasks limit2 maxBlocks).calls ≤
        maxBlocks) ∧
    ((∀ b ∈ ublocks, b.err = none ∨ b.err = some .unsupported) →
      (searchTagValuesRun none ublocks 0 0).inspectedBlocks =
        ublocks.length) ∧
    ((∀ b ∈ utasks, b.err = none) →
      (searchTagValuesV2Fold none utasks limit2 0).calls = utasks.length) := by
  refine ⟨?_, ?_, ?_, ?_⟩
  · intro hpos
    exact foldl_tagValuesStep_inspected_le _ _ _ hpos (Nat.zero_le _)
  · intro hpos
    unfold searchTagValuesV2Fold
    cases vhead with
    | none => exact foldl_tagValuesV2Step_invariant _ _ _ hpos (Nat.le_refl 0) (Nat.zero_le _)
    | some h =>
      obtain ⟨h1, h2⟩ := tagValuesV2Step_invariant maxBlocks
        ⟨DistinctValue.new limit2, 0, none, 0⟩ h hpos (Nat.le_refl 0) (Nat.zero_le _)
      exact foldl_tagValuesV2Step_invariant _ _ _ hpos h1 h2
  · intro hb
    unfold searchTagValuesRun
    simp only [List.foldl_cons]
    have hstep : tagValuesStep 0 (⟨DistinctString.new 0, 0, none⟩ : TVState)
        none = ⟨DistinctString.new 0, 0, none⟩ := rfl
    rw [hstep, foldl_tagValuesStep_unbounded ublocks
      ⟨DistinctString.new 0, 0, none⟩ hb rfl rfl rfl]
    simp
  · intro hb
    show (utasks.foldl (tagValuesV2Step 0)
      ⟨DistinctValue.new limit2, 0, none, 0⟩).calls = utasks.length
    rw [foldl_tagValuesV2Step_unbounded utasks
      ⟨DistinctValue.new limit2, 0, none, 0⟩ hb rfl]
    simp

/-- Witness for C9: a cap of 1 over three contributing blocks inspects only
one of them, while a cap of 0 searches all three in both surfaces. -/
theorem C9_block_cap_witness :
    (searchTagValuesRun (some ⟨["a"], none⟩)
      [⟨["b"], none⟩, ⟨["c"], none⟩] 0 1).inspectedBlocks ≤ 1 ∧
    (searchTagValuesV2Fold (some ⟨[⟨"t", "a"⟩], none⟩)
      [⟨[⟨"t", "b"⟩], none⟩, ⟨[⟨"t", "c"⟩], none⟩] 0 1).calls ≤ 1 ∧
    (searchTagValuesRun none
      [⟨["a"], none⟩, ⟨["b"], none⟩, ⟨["c"], none⟩] 0 0).inspectedBlocks = 3 ∧
    (searchTagValuesV2Fold none
      [⟨[⟨"t", "a"⟩], none⟩, ⟨[⟨"t", "b"⟩], none⟩, ⟨[⟨"t", "c"⟩], none⟩]
      0 0).calls = 3 := by
  obtain ⟨c1, c2, c3, c4⟩ := C9_block_cap (some ⟨["a"], none⟩)
    [⟨["b"], none⟩, ⟨["c"], none⟩] (some ⟨[⟨"t", "a"⟩], none⟩)
    [⟨[⟨"t", "b"⟩], none⟩, ⟨[⟨"t", "c"⟩], none⟩] 0 0 1
    [⟨["a"], none⟩, ⟨["b"], none⟩, ⟨["c"], none⟩]
    [⟨[⟨"t", "a"⟩], none⟩, ⟨[⟨"t", "b"⟩], none⟩, ⟨[⟨"t", "c"⟩], none⟩]
  exact ⟨c1 (by omega), c2 (by omega),
    c3 (by intro b hbm; left; fin_cases hbm <;> rfl),
    c4 (by intro b hbm; fin_cases hbm <;> rfl)⟩

/-- A tolerated block never fails `SearchTagsV2`'s per-block closure. -/
theorem tagsSearchBlock_benign_ok (c : ScopedDistinctString)
    (b : Option TagBlockOutcome) (h : ∀ x, b = some x → benignTag x) :
    ∃ c', tagsSearchBlock c b = .ok c' := by
  cases b with
  | none => exact ⟨c, rfl⟩
  | some x =>
    unfold tagsSearchBlock
    dsimp only
    by_cases hex : c.exceeded = true
    · rw [if_pos hex]
      exact ⟨c, rfl⟩
    · rw [if_neg hex]
      have hx := h x rfl
      rcases x with ⟨tags, xerr⟩
      rcases hx with hx | hx <;> subst hx <;> exact ⟨_, rfl⟩

/-- A list of tolerated blocks never fails `SearchTagsV2`'s sequential
traversal. -/
theorem tagsSearchBlocks_benign_ok (bs : List TagBlockOutcome)
    (c : ScopedDistinctString) (h : ∀ b ∈ bs, benignTag b) :
    ∃ c', tagsSearchBlocks c bs = .ok c' := by
  induction bs generalizing c with
  | nil => exact ⟨c, rfl⟩
  | cons b bs ih =>
    obtain ⟨c1, hc1⟩ := tagsSearchBlock_benign_ok c (some b)
      (fun x hx => by cases hx; exact h b (by simp))
    obtain ⟨c2, hc2⟩ := ih c1 (fun x hx => h x (by simp [hx]))
    refine ⟨c2, ?_⟩
    unfold tagsSearchBlocks
    rw [hc1]
    exact hc2

/-- `SearchTagsV2`'s full traversal succeeds over tolerated blocks. -/
theorem tagsCollectAll_benign_ok (head : Option TagBlockOutcome)
    (completing complete : List TagBlockOutcome) (limit : Nat)
    (hh : ∀ x, head = some x → benignTag x)
    (hcg : ∀ b ∈ completing, benignTag b)
    (hcp : ∀ b ∈ complete, benignTag b) :
    ∃ c, tagsCollectAll head completing complete limit = .ok c := by
  obtain ⟨c1, h1⟩ :=
    tagsSearchBlock_benign_ok (ScopedDistinctString.new limit) head hh
  obtain ⟨c2, h2⟩ := tagsSearchBlocks_benign_ok completing c1 hcg
  obtain ⟨c3, h3⟩ := tagsSearchBlocks_benign_ok complete c2 hcp
  refine ⟨c3, ?_⟩
  unfold tagsCollectAll
  rw [h1]
  dsimp only
  rw [h2]
  exact h3

/-- `SearchTagsV2` succeeds for every recognised scope over tolerated
blocks, whatever the byte limit. -/
theorem searchTagsV2_benign_ok (scope : String)
    (head : Option TagBlockOutcome)
    (completing complete : List TagBlockOutcome) (limit : Nat)
    (hscope : attributeScopeFromString scope ≠ AttributeScope.unknown)
    (hh : ∀ x, head = some x → benignTag x)
    (hcg : ∀ b ∈ completing, benignTag b)
    (hcp : ∀ b ∈ complete, benignTag b) :
    ∃ r, searchTagsV2 scope head completing complete limit = .ok r := by
  unfold searchTagsV2
  by_cases hsi : scope = paramScopeIntrinsic
  · rw [if_pos hsi]
    exact ⟨_, rfl⟩
  · rw [if_neg hsi]
    dsimp only
    rw [if_neg hscope]
    obtain ⟨c, hc⟩ :=
      tagsCollectAll_benign_ok head completing complete limit hh hcg hcp
    rw [hc]
    exact ⟨_, rfl⟩

/-- One flat tag-value step keeps the traversal error-free when its block
is tolerated. -/
theorem tagValuesStep_err_none (maxBlocks : Nat) (st : TVState)
    (s : Option ValueBlockOutcome)
    (hs : ∀ b, s = some b → benignVal b) (he : st.err = none) :
    (tagValuesStep maxBlocks st s).err = none := by
  unfold tagValuesStep
  split
  · exact he
  · split
    · exact he
    · cases s with
      | none => exact he
      | some b =>
        dsimp only
        have hb := hs b rfl
        by_cases hex : st.dv.exceeded = true
        · rw [if_pos hex]
          exact he
        · rw [if_neg hex]
          rcases b with ⟨vals, berr⟩
          rcases hb with hb | hb <;> subst hb <;> exact he

/-- The full flat tag-value traversal stays error-free over tolerated
blocks. -/
theorem foldl_tagValuesStep_err_none (ss : List (Option ValueBlockOutcome))
    (maxBlocks : Nat) (st : TVState)
    (hs : ∀ o ∈ ss, ∀ b, o = some b → benignVal b) (he : st.err = none) :
    (ss.foldl (tagValuesStep maxBlocks) st).err = none := by
  induction ss generalizing st with
  | nil => exact he
  | cons o os ih =>
    exact ih _ (fun o' ho' b hb => hs o' (by simp [ho']) b hb)
      (tagValuesStep_err_none maxBlocks st o (hs o (by simp)) he)

/-- `SearchTagValues` succeeds over tolerated blocks and returns the
collected partial set, whatever the byte limit and block cap. -/
theorem searchTagValues_benign_ok (head : Option ValueBlockOutcome)
    (blocks : List ValueBlockOutcome) (limit maxBlocks : Nat)
    (hh : ∀ x, head = some x → benignVal x)
    (hb : ∀ b ∈ blocks, benignVal b) :
    searchTagValues head blocks limit maxBlocks =
      .ok (searchTagValuesRun head blocks limit maxBlocks).dv.items := by
  have he : (searchTagValuesRun head blocks limit maxBlocks).err = none := by
    unfold searchTagValuesRun
    refine foldl_tagValuesStep_err_none _ _ _ ?_ rfl
    intro o ho b hob
    rcases List.mem_cons.mp ho with h' | h'
    · exact hh b (h' ▸ hob)
    · obtain ⟨x, hx, hxo⟩ := List.mem_map.mp h'
      have : x = b := by
        rw [← hxo] at hob
        exact Option.some.inj hob
      exact this ▸ hb x hx
  unfold searchTagValues
  dsimp only
  rw [he]

/-- One typed tag-value task keeps the `anyErr` slot clear when its block
returns no error. -/
theorem tagValuesV2Step_anyErr_none (maxBlocks : Nat) (st : TV2State)
    (b : TagValueBlockOutcome) (hb : b.err = none)
    (ha : st.anyErr = none) :
    (tagValuesV2Step maxBlocks st b).anyErr = none := by
  unfold tagValuesV2Step
  rw [ha]
  rcases b with ⟨vals, berr⟩
  subst hb
  simp only [Option.isSome_none, Bool.false_eq_true, if_false]
  split <;> split <;> first | rfl | exact ha

/-- The typed tag-value fan-out keeps the `anyErr` slot clear over
error-free blocks. -/
theorem foldl_tagValuesV2Step_anyErr_none (bs : List TagValueBlockOutcome)
    (maxBlocks : Nat) (st : TV2State) (hb : ∀ b ∈ bs, b.err = none)
    (ha : st.anyErr = none) :
    (bs.foldl (tagValuesV2Step maxBlocks) st).anyErr = none := by
  induction bs generalizing st with
  | nil => exact ha
  | cons b bs ih =>
    exact ih _ (fun x hx => hb x (by simp [hx]))
      (tagValuesV2Step_anyErr_none maxBlocks st b (hb b (by simp)) ha)

/-- `SearchTagValuesV2` succeeds for every parseable tag name over
error-free blocks, whatever the byte limit and block cap. -/
theorem searchTagValuesV2_benign_ok (tagName : String)
    (head : Option TagValueBlockOutcome) (tasks : List TagValueBlockOutcome)
    (limit maxBlocks : Nat) (hname : tagName ≠ "")
    (hh : ∀ x, head = some x → x.err = none)
    (ht : ∀ b ∈ tasks, b.err = none) :
    ∃ l, searchTagValuesV2 tagName head tasks limit maxBlocks = .ok l := by
  unfold searchTagValuesV2 parseIdentifier
  rw [if_neg hname]
  dsimp only
  by_cases hin : tagName ∈ idIntrinsics
  · rw [if_pos hin]
    exact ⟨[], rfl⟩
  · rw [if_neg hin]
    have hA : (searchTagValuesV2Fold head tasks limit maxBlocks).anyErr
        = none := by
      unfold searchTagValuesV2Fold
      cases head with
      | none => exact foldl_tagValuesV2Step_anyErr_none tasks maxBlocks _ ht rfl
      | some x =>
        exact foldl_tagValuesV2Step_anyErr_none tasks maxBlocks _ ht
          (tagValuesV2Step_anyErr_none maxBlocks _ x (hh x rfl) rfl)
    rw [hA]
    exact ⟨_, rfl⟩

/-- Claim C8: in the three tag-enumeration surfaces, a collector that
exceeds its byte limit is never surfaced as an error: whatever the byte
limit (including ones the collected data overflows, latching `exceeded`),
the calls still succeed and return the partial collected set, as long as
no block fails the surface's own error policy. -/
theorem C8_collector_overflow_not_error (scope : String)
    (head : Option TagBlockOutcome)
    (completing complete : List TagBlockOutcome)
    (vhead : Option ValueBlockOutcome) (vblocks : List ValueBlockOutcome)
    (tagName : String) (whead : Option TagValueBlockOutcome)
    (wtasks : List TagValueBlockOutcome) (limit limit2 limit3
    maxBlocks maxBlocks2 : Nat) :
    (attributeScopeFromString scope ≠ AttributeScope.unknown →
      (∀ x, head = some x → benignTag x) →
      (∀ b ∈ completing, benignTag b) → (∀ b ∈ complete, benignTag b) →
      ∃ r, searchTagsV2 scope head completing complete limit = .ok r) ∧
    ((∀ x, vhead = some x → benignVal x) → (∀ b ∈ vblocks, benignVal b) →
      searchTagValues vhead vblocks limit2 maxBlocks =
        .ok (searchTagValuesRun vhead vblocks limit2 maxBlocks).dv.items) ∧
    (tagName ≠ "" → (∀ x, whead = some x → x.err = none) →
      (∀ b ∈ wtasks, b.err = none) →
      ∃ l, searchTagValuesV2 tagName whead wtasks limit3 maxBlocks2
        = .ok l) := by
  refine ⟨?_, ?_, ?_⟩
  · intro hscope hh hcg hcp
    exact searchTagsV2_benign_ok scope head completing complete limit
      hscope hh hcg hcp
  · intro hh hb
    exact searchTagValues_benign_ok vhead vblocks limit2 maxBlocks hh hb
  · intro hname hh ht
    exact searchTagValuesV2_benign_ok tagName whead wtasks limit3 maxBlocks2
      hname hh ht

/-- Witness for C8: a byte limit of 2 overflows on the head block's values
`aa` and `bbb`, latching `exceeded`, yet the flat surface still returns the
partial set `[aa]`; the other two surfaces succeed on the same shapes. -/
theorem C8_collector_overflow_not_error_witness :
    (searchTagValuesRun (some ⟨["aa", "bbb"], none⟩) [] 2 0).dv.exceeded
      = true ∧
    searchTagValues (some ⟨["aa", "bbb"], none⟩) [] 2 0 = .ok ["aa"] ∧
    (∃ r, searchTagsV2 "" (some ⟨[("span", "http.method")], none⟩) [] [] 1
      = .ok r) ∧
    (∃ l, searchTagValuesV2 "http.status" (some ⟨[⟨"int", "200"⟩], none⟩)
      [] 1 0 = .ok l) := by
  obtain ⟨c1, c2, c3⟩ := C8_collector_overflow_not_error ""
    (some ⟨[("span", "http.method")], none⟩) [] []
    (some ⟨["aa", "bbb"], none⟩) [] "http.status"
    (some ⟨[⟨"int", "200"⟩], none⟩) [] 1 2 1 0 0
  refine ⟨rfl, ?_, ?_, ?_⟩
  · have h2 := c2 (by intro x hx; cases hx; exact Or.inl rfl)
      (by intro b hbm; exact absurd hbm (List.not_mem_nil b))
    exact h2.trans (by rfl)
  · exact c1 (by decide) (by intro x hx; cases hx; exact Or.inl rfl)
      (by intro b hbm; exact absurd hbm (List.not_mem_nil b))
      (by intro b hbm; exact absurd hbm (List.not_mem_nil b))
  · exact c3 (by decide) (by intro x hx; cases hx; exact rfl)
      (by intro b hbm; exact absurd hbm (List.not_mem_nil b))

/-- Claim C10: trace search dereferences the head block's metadata with no
nil guard, so a nil head is a nil-pointer dereference (modelled as `none`)
and the call is total exactly when the head is non-nil; the three tag
surfaces each guard a nil head block/searcher and succeed when it is nil
(under their own tolerance for the remaining blocks). -/
theorem C10_nil_head (req : SearchRequest)
    (blocks : List (BlockMeta × BlockSearchOutcome)) (hm : BlockMeta)
    (ho : BlockSearchOutcome) (scope : String)
    (completing complete : List TagBlockOutcome)
    (vblocks : List ValueBlockOutcome) (tagName : String)
    (wtasks : List TagValueBlockOutcome) (limit maxBlocks : Nat) :
    instanceSearch req none blocks = none ∧
    (instanceSearch req (some (hm, ho)) blocks).isSome = true ∧
    (attributeScopeFromString scope ≠ AttributeScope.unknown →
      (∀ b ∈ completing, benignTag b) → (∀ b ∈ complete, benignTag b) →
      ∃ r, searchTagsV2 scope none completing complete limit = .ok r) ∧
    ((∀ b ∈ vblocks, benignVal b) →
      searchTagValues none vblocks limit maxBlocks =
        .ok (searchTagValuesRun none vblocks limit maxBlocks).dv.items) ∧
    (tagName ≠ "" → (∀ b ∈ wtasks, b.err = none) →
      ∃ l, searchTagValuesV2 tagName none wtasks limit maxBlocks
        = .ok l) := by
  refine ⟨rfl, ?_, ?_, ?_, ?_⟩
  · simp only [instanceSearch]
    repeat' split
    all_goals rfl
  · intro hscope hcg hcp
    exact searchTagsV2_benign_ok scope none completing complete limit
      hscope (fun x hx => by cases hx) hcg hcp
  · intro hb
    exact searchTagValues_benign_ok none vblocks limit maxBlocks
      (fun x hx => by cases hx) hb
  · intro hname ht
    exact searchTagValuesV2_benign_ok tagName none wtasks limit maxBlocks
      hname (fun x hx => by cases hx) ht

/-- Witness for C10: with a nil head, trace search is the nil dereference
while the three tag surfaces all succeed on concrete inputs. -/
theorem C10_nil_head_witness :
    instanceSearch ⟨5, 0, 0, ""⟩ none [] = none ∧
    (instanceSearch ⟨5, 0, 0, ""⟩
      (some (⟨1, 0, 0⟩, ⟨none, none⟩)) []).isSome = true ∧
    (∃ r, searchTagsV2 "span" none [] [] 0 = .ok r) ∧
    searchTagValues none [] 0 0 =
      .ok (searchTagValuesRun none [] 0 0).dv.items ∧
    (∃ l, searchTagValuesV2 "name" none [] 0 0 = .ok l) := by
  obtain ⟨c1, c2, c3, c4, c5⟩ := C10_nil_head ⟨5, 0, 0, ""⟩ [] ⟨1, 0, 0⟩
    ⟨none, none⟩ "span" [] [] [] "name" [] 0 0
  exact ⟨c1, c2,
    c3 (by decide) (by intro b hb; exact absurd hb (List.not_mem_nil b))
      (by intro b hb; exact absurd hb (List.not_mem_nil b)),
    c4 (by intro b hb; exact absurd hb (List.not_mem_nil b)),
    c5 (by decide) (by intro b hb; exact absurd hb (List.not_mem_nil b))⟩

/-- Claim C6 counterexample: with the explicit non-empty scope `none` (and
likewise with the sentinel scope `intrinsic`), the flat `SearchTags`
response is exactly the non-empty virtual intrinsic tag list — the
intrinsic scope contributed by `SearchTagsV2` is flattened into the flat
output rather than excluded. -/
theorem C6_intrinsics_in_flat_counterexample :
    searchTags "none" none [] [] 0 = .ok getVirtualIntrinsicValues ∧
    searchTags "intrinsic" none [] [] 0 = .ok getVirtualIntrinsicValues ∧
    "duration" ∈ getVirtualIntrinsicValues :=
  ⟨rfl, rfl, by decide⟩

end TempoSearch
